import Mathlib

/-!
Shallow embedding of the moira pitch model and timeline compiler
(src/key.rs, src/scale.rs, src/track.rs, src/chord.rs).

Modelling conventions:
  - Rust machine integers (i8, u8, u32) are modelled as Int or Nat.  In the
    ranges exercised by the theorems below all Rust arithmetic stays inside
    its machine range, so unbounded arithmetic agrees with the source.
  - Rust operations that can panic or return Result are modelled as
    Option / Except valued functions: a division by zero, a failing
    try_from conversion, an out-of-range index or an unwrap of None all
    become none / Except.error.
  - rem_euclid / div_euclid are Int.emod / Int.ediv.
-/

namespace Moira

/-- Key(i8): one of the 12 pitch classes (src/key.rs). -/
structure Key where
  val : Int
deriving DecidableEq, Repr

/-- Key::new — normalizes with rem_euclid(12). -/
def Key.new (key : Int) : Key :=
  ⟨key.emod 12⟩

/-- impl Add for Key: (self.0 + rhs) renormalized. -/
def Key.add (k : Key) (rhs : Int) : Key :=
  Key.new (k.val + rhs)

/-- KeyModifier enum (src/key.rs). -/
inductive KeyModifier where
  | Natural
  | Flat
  | Sharp
  | DoubleSharp
deriving DecidableEq, Repr

/-- KeyModifier::get_value. -/
def KeyModifier.getValue : KeyModifier → Int
  | .Flat => -1
  | .Natural => 0
  | .Sharp => 1
  | .DoubleSharp => 2

/-- BaseKey enum (src/key.rs): the seven letter names. -/
inductive BaseKey where
  | C
  | D
  | E
  | F
  | G
  | A
  | B
deriving DecidableEq, Repr

/-- BaseKey::to_key. -/
def BaseKey.toKey (b : BaseKey) : Key :=
  Key.new (match b with
    | .C => 0
    | .D => 2
    | .E => 4
    | .F => 5
    | .G => 7
    | .A => 9
    | .B => 11)

/-- The fixed array keys_in_order inside BaseKey::get_keys_in_order. -/
def baseKeysInOrder : List BaseKey :=
  [.C, .D, .E, .F, .G, .A, .B]

/-- BaseKey::get_keys_in_order: the source looks up the position of self in
the array and then takes 7 elements of the cycled iterator from there, which
is exactly the rotation of the array starting at self. -/
def BaseKey.getKeysInOrder (b : BaseKey) : List BaseKey :=
  let startIdx : Nat := match b with
    | .C => 0
    | .D => 1
    | .E => 2
    | .F => 3
    | .G => 4
    | .A => 5
    | .B => 6
  baseKeysInOrder.drop startIdx ++ baseKeysInOrder.take startIdx

/-- NamedKey (src/key.rs): a spelled pitch class. -/
structure NamedKey where
  base_key : BaseKey
  key_modifier : KeyModifier
deriving DecidableEq, Repr

/-- NamedKey::new. -/
def NamedKey.new (base_key : BaseKey) (key_modifier : KeyModifier) : NamedKey :=
  ⟨base_key, key_modifier⟩

/-- NamedKey::get_components. -/
def NamedKey.getComponents (nk : NamedKey) : BaseKey × KeyModifier :=
  (nk.base_key, nk.key_modifier)

/-- NamedKey::to_key. -/
def NamedKey.toKey (nk : NamedKey) : Key :=
  nk.base_key.toKey.add nk.key_modifier.getValue

/-- Key::get_named_key_starting_with — the fixed lookup table, entry by
entry as written in src/key.rs lines 24-52. -/
def Key.getNamedKeyStartingWith (k : Key) (baseKey : BaseKey) : Option NamedKey :=
  match k.val, baseKey with
  | 0, .B => some (NamedKey.new .B .Sharp)
  | 0, .C => some (NamedKey.new .C .Natural)
  | 1, .C => some (NamedKey.new .C .Sharp)
  | 1, .D => some (NamedKey.new .D .Flat)
  | 2, .C => some (NamedKey.new .D .DoubleSharp)
  | 2, .D => some (NamedKey.new .D .Natural)
  | 3, .D => some (NamedKey.new .D .Sharp)
  | 3, .E => some (NamedKey.new .E .Flat)
  | 4, .E => some (NamedKey.new .E .Natural)
  | 4, .F => some (NamedKey.new .F .Flat)
  | 5, .E => some (NamedKey.new .E .Sharp)
  | 5, .F => some (NamedKey.new .F .Natural)
  | 6, .F => some (NamedKey.new .F .Sharp)
  | 6, .G => some (NamedKey.new .G .Flat)
  | 7, .F => some (NamedKey.new .G .DoubleSharp)
  | 7, .G => some (NamedKey.new .G .Natural)
  | 8, .G => some (NamedKey.new .G .Sharp)
  | 8, .A => some (NamedKey.new .A .Flat)
  | 9, .G => some (NamedKey.new .A .DoubleSharp)
  | 9, .A => some (NamedKey.new .A .Natural)
  | 10, .A => some (NamedKey.new .A .Sharp)
  | 10, .B => some (NamedKey.new .B .Flat)
  | 11, .B => some (NamedKey.new .B .Natural)
  | 11, .C => some (NamedKey.new .C .Flat)
  | _, _ => none

/-- Key::get_default_named_key.  The catch-all arm is a Rust panic; it is
unreachable for any key built with Key.new, whose value lies in [0,11]. -/
def Key.getDefaultNamedKey (k : Key) : NamedKey :=
  match k.val with
  | 0 => NamedKey.new .C .Natural
  | 1 => NamedKey.new .C .Sharp
  | 2 => NamedKey.new .D .Natural
  | 3 => NamedKey.new .D .Sharp
  | 4 => NamedKey.new .E .Natural
  | 5 => NamedKey.new .F .Natural
  | 6 => NamedKey.new .F .Sharp
  | 7 => NamedKey.new .G .Natural
  | 8 => NamedKey.new .G .Sharp
  | 9 => NamedKey.new .A .Natural
  | 10 => NamedKey.new .A .Sharp
  | 11 => NamedKey.new .B .Natural
  | _ => NamedKey.new .C .Natural

/-- Note(u8): an absolute pitch in MIDI numbering (src/key.rs). -/
structure Note where
  val : Int
deriving DecidableEq, Repr

/-- impl Add for Note: plain pitch arithmetic.  In Rust the conversions
through i8/u8 panic outside [0,127]; the theorems below only evaluate this
inside that range, where Int addition agrees with the source. -/
def Note.add (n : Note) (rhs : Int) : Note :=
  ⟨n.val + rhs⟩

/-- Note::decompose: key = value mod 12, octave = (value - key)/12 - 1.
For the nonnegative values a u8 holds, Int.emod / Int.ediv agree with the
u8 arithmetic of the source. -/
def Note.decompose (n : Note) : Key × Int :=
  let key := n.val.emod 12
  let octave := (n.val - key).ediv 12 - 1
  (Key.new key, octave)

/-- Note::compose: C-1 is 0, C0 is 12. -/
def Note.compose (key : Key) (octave : Int) : Note :=
  Note.add ⟨key.val⟩ ((octave + 1) * 12)

/-- NamedNote (src/key.rs): a spelled absolute pitch. -/
structure NamedNote where
  key : NamedKey
  octave : Int
deriving DecidableEq, Repr

/-- NamedNote::new. -/
def NamedNote.new (key : NamedKey) (octave : Int) : NamedNote :=
  ⟨key, octave⟩

/-- NamedNote::to_note. -/
def NamedNote.toNote (nn : NamedNote) : Note :=
  (Note.compose nn.key.base_key.toKey nn.octave).add nn.key.key_modifier.getValue

/-- Note::get_named_note_starting_with, with the B sharp / C flat octave
special cases. -/
def Note.getNamedNoteStartingWith (n : Note) (baseKey : BaseKey) : Option NamedNote :=
  let (key, octave) := n.decompose
  (key.getNamedKeyStartingWith baseKey).map (fun namedKey =>
    match namedKey.base_key, namedKey.key_modifier with
    | .B, .Sharp => NamedNote.new namedKey (octave - 1)
    | .C, .Flat => NamedNote.new namedKey (octave + 1)
    | _, _ => NamedNote.new namedKey octave)

/-- C1: the claim says every Some answer of Key::get_named_key_starting_with
spells the requested pitch class starting with the requested letter.  The
table entry for pitch class 2 with letter C instead returns D double-sharp,
whose base letter is D and whose pitch class is 4: the code contradicts the
contract stated by the function name (same slip at (7,F) and (9,G)). -/
theorem c1_lookup_returns_wrong_letter :
    (Key.new 2).getNamedKeyStartingWith BaseKey.C =
      some (NamedKey.new BaseKey.D KeyModifier.DoubleSharp) ∧
    (NamedKey.new BaseKey.D KeyModifier.DoubleSharp).base_key ≠ BaseKey.C ∧
    (NamedKey.new BaseKey.D KeyModifier.DoubleSharp).toKey ≠ Key.new 2 ∧
    (NamedKey.new BaseKey.D KeyModifier.DoubleSharp).toKey = Key.new 4 ∧
    (Key.new 7).getNamedKeyStartingWith BaseKey.F =
      some (NamedKey.new BaseKey.G KeyModifier.DoubleSharp) ∧
    (Key.new 9).getNamedKeyStartingWith BaseKey.G =
      some (NamedKey.new BaseKey.A KeyModifier.DoubleSharp) := by
  decide

/-- C3: the round-trip law to_note(get_named_note_starting_with(n, L)) = n
fails at Note 14 (pitch class 2) with letter C: the buggy table entry makes
the result D double-sharp octave 0, whose to_note is 16, not 14.  The B#/Cb
boundary instances named by the claim do hold. -/
theorem c3_round_trip_fails :
    (Note.mk 14).getNamedNoteStartingWith BaseKey.C =
      some (NamedNote.new (NamedKey.new .D .DoubleSharp) 0) ∧
    (NamedNote.new (NamedKey.new .D .DoubleSharp) 0).toNote = Note.mk 16 ∧
    Note.mk 16 ≠ Note.mk 14 ∧
    (NamedNote.new (NamedKey.new .B .Sharp) 3).toNote =
      (NamedNote.new (NamedKey.new .C .Natural) 4).toNote ∧
    (NamedNote.new (NamedKey.new .C .Flat) 4).toNote =
      (NamedNote.new (NamedKey.new .B .Natural) 3).toNote := by
  decide

/-! ## Scale (src/scale.rs) -/

/-- Scale struct: anchor, offsets, and the cached per-degree spellings. -/
structure Scale where
  start : NamedKey
  offsets : List Int
  elements : List NamedKey
deriving DecidableEq, Repr

/-- The validation loop at the top of Scale::new, with the running
previous_offset.  Returns the error message the source returns, or none
when the offsets pass. -/
def validateOffsets : Option Int → List Int → Option String
  | _, [] => none
  | previous, offset :: rest =>
    if offset < 0 ∨ offset > 11 then
      some "All offsets must be between 0 and 11!"
    else
      match previous with
      | some previousOffset =>
        if previousOffset ≥ offset then
          some "Offsets must be in strictly increasing order!"
        else
          validateOffsets (some offset) rest
      | none => validateOffsets (some offset) rest

/-- The loop body of Scale::generate_elements.  The source keeps the seven
letters in a Vec built by reversing get_keys_in_order and consumes it with
last()/pop(); the back of that reversed Vec is the front of
get_keys_in_order, so the stack is this list consumed from its head. -/
def genGo (startKey : Key) : List BaseKey → List Int → List NamedKey
  | _, [] => []
  | keysStack, offset :: rest =>
    let key := startKey.add offset
    match keysStack with
    | lastKey :: poppedStack =>
      match key.getNamedKeyStartingWith lastKey with
      | some namedKey => namedKey :: genGo startKey poppedStack rest
      | none => key.getDefaultNamedKey :: genGo startKey (lastKey :: poppedStack) rest
    | [] => key.getDefaultNamedKey :: genGo startKey [] rest

/-- Scale::generate_elements.  The warn diagnostic emitted on the fallback
branch is logging only and has no computational effect. -/
def generateElements (start : NamedKey) (offsets : List Int) : List NamedKey :=
  genGo start.toKey start.base_key.getKeysInOrder offsets

/-- Scale::new. -/
def Scale.new (start : NamedKey) (offsets : List Int) : Except String Scale :=
  match validateOffsets none offsets with
  | some e => .error e
  | none => .ok ⟨start, offsets, generateElements start offsets⟩

/-- Scale::get_index_and_additional_octaves.  rem_euclid and div_euclid on
i8 divide by the degree count; with zero degrees the source panics (division
by zero), modelled as none.  The emod result is nonnegative, so toNat is the
usize conversion of the source. -/
def Scale.getIndexAndAdditionalOctaves (s : Scale) (position : Int) :
    Option (Nat × Int) :=
  let len : Int := s.offsets.length
  if len = 0 then none
  else some ((position.emod len).toNat, position.ediv len)

/-- Scale::get_note. -/
def Scale.getNote (s : Scale) (position octave : Int) : Option Note := do
  let (indexUsize, additionalOctaves) ← s.getIndexAndAdditionalOctaves position
  let offset ← s.offsets.get? indexUsize
  pure ((Note.compose s.start.toKey (octave + additionalOctaves)).add offset)

/-- Scale::get_named_note.  The final unwrap of the source is a panic when
the spelling lookup fails, modelled by staying in Option. -/
def Scale.getNamedNote (s : Scale) (position octave : Int) : Option NamedNote := do
  let (indexUsize, _) ← s.getIndexAndAdditionalOctaves position
  let note ← s.getNote position octave
  let element ← s.elements.get? indexUsize
  note.getNamedNoteStartingWith element.base_key

/-- The C natural anchor used by the concrete scales below. -/
def cNaturalKey : NamedKey := NamedKey.new .C .Natural

/-- The major-scale offsets used across the source and its tests. -/
def majorOffsets : List Int := [0, 2, 4, 5, 7, 9, 11]

/-- The C-major scale, as Scale::new builds it (the error arm is
unreachable: the major offsets pass validation). -/
def cMajorScale : Scale :=
  match Scale.new cNaturalKey majorOffsets with
  | .ok s => s
  | .error _ => ⟨cNaturalKey, [], []⟩

/-- C6: Scale::get_note resolves position p on a non-empty scale to the
anchor composed at octave o + ediv(p, len) plus offsets[emod p len], with
Euclidean modulo and floor division, and on the C-major scale at octave 4:
position -1 is B3 (59), position 7 is C5 (72), position 9 is E5 (76). -/
theorem c6_scale_get_note :
    (∀ (s : Scale) (p o : Int), 0 < s.offsets.length →
      s.getNote p o =
        (s.offsets.get? (p.emod (s.offsets.length : Int)).toNat).map
          (fun offset =>
            (Note.compose s.start.toKey
              (o + p.ediv (s.offsets.length : Int))).add offset)) ∧
    cMajorScale.getNote (-1) 4 = some (Note.mk 59) ∧
    cMajorScale.getNote 7 4 = some (Note.mk 72) ∧
    cMajorScale.getNote 9 4 = some (Note.mk 76) ∧
    cMajorScale.getNamedNote (-1) 4 = some (NamedNote.new (NamedKey.new .B .Natural) 3) ∧
    cMajorScale.getNamedNote 7 4 = some (NamedNote.new (NamedKey.new .C .Natural) 5) ∧
    cMajorScale.getNamedNote 9 4 = some (NamedNote.new (NamedKey.new .E .Natural) 5) := by
  refine ⟨?_, by decide, by decide, by decide, by decide, by decide, by decide⟩
  intro s p o hlen
  have hne : ((s.offsets.length : Int)) ≠ 0 := by
    simp only [ne_eq, Int.natCast_eq_zero]
    omega
  simp [Scale.getNote, Scale.getIndexAndAdditionalOctaves, hne]
  rcases h : s.offsets[(p.emod (s.offsets.length : Int)).toNat]? with _ | v <;> simp [h]

/-- Witness for C6: the general formula instantiated on the C-major scale
at position -1, octave 4. -/
theorem c6_scale_get_note_witness :
    cMajorScale.getNote (-1) 4 =
      (cMajorScale.offsets.get? (Int.emod (-1) (cMajorScale.offsets.length : Int)).toNat).map
        (fun offset =>
          (Note.compose cMajorScale.start.toKey
            (4 + Int.ediv (-1) (cMajorScale.offsets.length : Int))).add offset) :=
  c6_scale_get_note.1 cMajorScale (-1) 4 (by decide)

/-- C9: in Scale::generate_elements the letter queue is consumed only on a
successful spelling.  If the next queued letter L fails for the current
degree, that degree falls back to the default spelling and the queue is
unchanged, so the immediately following degree attempts the very same
letter L (and consumes it when it succeeds). -/
theorem c9_fallback_keeps_letter (startKey : Key) (stack : List BaseKey)
    (L : BaseKey) (o : Int) (rest : List Int)
    (hfail : (startKey.add o).getNamedKeyStartingWith L = none) :
    genGo startKey (L :: stack) (o :: rest) =
      (startKey.add o).getDefaultNamedKey :: genGo startKey (L :: stack) rest ∧
    (∀ o2 rest2 nk, rest = o2 :: rest2 →
      (startKey.add o2).getNamedKeyStartingWith L = some nk →
      genGo startKey (L :: stack) rest = nk :: genGo startKey stack rest2) := by
  constructor
  · simp [genGo, hfail]
  · intro o2 rest2 nk hr hsucc
    subst hr
    simp [genGo, hsucc]

/-- Witness for C9: anchored at C with offsets [3, 11], the first degree
(pitch class 3) has no spelling starting with C, so it degrades to the
default D sharp without consuming the letter C, and the second degree
(pitch class 11) is then spelled C flat with that same letter. -/
theorem c9_fallback_keeps_letter_witness :
    genGo (Key.new 0) (BaseKey.C :: [.D, .E, .F, .G, .A, .B]) [3, 11] =
      ((Key.new 0).add 3).getDefaultNamedKey ::
        genGo (Key.new 0) (BaseKey.C :: [.D, .E, .F, .G, .A, .B]) [11] ∧
    genGo (Key.new 0) (BaseKey.C :: [.D, .E, .F, .G, .A, .B]) [11] =
      NamedKey.new .C .Flat :: genGo (Key.new 0) [.D, .E, .F, .G, .A, .B] [] := by
  have h := c9_fallback_keeps_letter (Key.new 0) [.D, .E, .F, .G, .A, .B]
    BaseKey.C 3 [11] (by decide)
  exact ⟨h.1, h.2 11 [] (NamedKey.new .C .Flat) rfl (by decide)⟩

/-- C10: Scale::new accepts an empty offsets vector (both structural checks
pass vacuously), but on the resulting zero-degree Scale both get_note and
get_named_note divide by the degree count zero in rem_euclid/div_euclid —
a panic in the source, modelled as none. -/
theorem c10_empty_scale_panics (start : NamedKey) (p o : Int) :
    Scale.new start [] = Except.ok ⟨start, [], []⟩ ∧
    (Scale.mk start [] []).getNote p o = none ∧
    (Scale.mk start [] []).getNamedNote p o = none :=
  ⟨rfl, rfl, rfl⟩

/-- The validation loop returns no error exactly when every offset lies in
[0,11], the offsets are strictly increasing, and the first offset (if any)
exceeds the running previous offset carried in from outside. -/
theorem validateOffsets_eq_none_iff (l : List Int) : ∀ (prev : Option Int),
    validateOffsets prev l = none ↔
      ((∀ o ∈ l, 0 ≤ o ∧ o ≤ 11) ∧ l.Chain' (fun a b => a < b) ∧
        ∀ p ∈ prev, ∀ h ∈ l.head?, p < h) := by
  induction l with
  | nil =>
    intro prev
    simp [validateOffsets]
  | cons o rest ih =>
    intro prev
    by_cases hr : o < 0 ∨ o > 11
    · simp only [validateOffsets, if_pos hr]
      constructor
      · intro h
        exact absurd h (by simp)
      · rintro ⟨hall, -, -⟩
        have := hall o (List.mem_cons_self o rest)
        omega
    · have hrange : 0 ≤ o ∧ o ≤ 11 := by omega
      cases prev with
      | none =>
        simp only [validateOffsets, if_neg hr, ih]
        constructor
        · rintro ⟨hall, hchain, hnext⟩
          refine ⟨?_, ?_, ?_⟩
          · intro x hx
            rcases List.mem_cons.mp hx with rfl | h2
            · exact hrange
            · exact hall x h2
          · rw [List.chain'_cons']
            exact ⟨fun h hh => hnext o (by simp) h hh, hchain⟩
          · intro p hp
            simp at hp
        · rintro ⟨hall, hchain, -⟩
          rw [List.chain'_cons'] at hchain
          refine ⟨fun x hx => hall x (List.mem_cons_of_mem o hx), hchain.2, ?_⟩
          intro p hp h hh
          have hpo : o = p := by simpa using hp
          exact hpo ▸ hchain.1 h hh
      | some p =>
        by_cases hpo : p ≥ o
        · simp only [validateOffsets, if_neg hr, if_pos hpo]
          constructor
          · intro h
            exact absurd h (by simp)
          · rintro ⟨-, -, hnext⟩
            have := hnext p (by simp) o (by simp)
            omega
        · simp only [validateOffsets, if_neg hr, if_neg hpo, ih]
          constructor
          · rintro ⟨hall, hchain, hnext⟩
            refine ⟨?_, ?_, ?_⟩
            · intro x hx
              rcases List.mem_cons.mp hx with rfl | h2
              · exact hrange
              · exact hall x h2
            · rw [List.chain'_cons']
              exact ⟨fun h hh => hnext o (by simp) h hh, hchain⟩
            · intro q hq h hh
              have hq2 : p = q := by simpa using hq
              have hh2 : o = h := by simpa using hh
              omega
          · rintro ⟨hall, hchain, -⟩
            rw [List.chain'_cons'] at hchain
            refine ⟨fun x hx => hall x (List.mem_cons_of_mem o hx), hchain.2, ?_⟩
            intro q hq h hh
            have hq2 : o = q := by simpa using hq
            exact hq2 ▸ hchain.1 h hh

/-- C8: Scale::new errors exactly when some offset leaves [0,11] or the
offsets fail to be strictly increasing; any offsets list passing these
structural checks constructs successfully, and the constructed Scale always
carries the elements of generate_elements — the spelling fallback inside
element generation is total and never fails construction. -/
theorem c8_scale_new_validation (start : NamedKey) (offsets : List Int) :
    ((∃ s, Scale.new start offsets = Except.ok s) ↔
      ((∀ o ∈ offsets, 0 ≤ o ∧ o ≤ 11) ∧ offsets.Chain' (fun a b => a < b))) ∧
    ∀ s, Scale.new start offsets = Except.ok s →
      s = ⟨start, offsets, generateElements start offsets⟩ := by
  have hv := validateOffsets_eq_none_iff offsets none
  constructor
  · constructor
    · rintro ⟨s, hs⟩
      unfold Scale.new at hs
      cases h : validateOffsets none offsets with
      | none =>
        have := hv.mp h
        exact ⟨this.1, this.2.1⟩
      | some e =>
        rw [h] at hs
        exact Except.noConfusion hs
    · intro hcond
      have hnone : validateOffsets none offsets = none :=
        hv.mpr ⟨hcond.1, hcond.2, by simp⟩
      refine ⟨⟨start, offsets, generateElements start offsets⟩, ?_⟩
      unfold Scale.new
      rw [hnone]
  · intro s hs
    unfold Scale.new at hs
    cases h : validateOffsets none offsets with
    | none =>
      rw [h] at hs
      injection hs with h2
      exact h2.symm
    | some e =>
      rw [h] at hs
      exact Except.noConfusion hs

/-- Witness for C8: the major offsets pass the structural checks, so the
C-major Scale is constructed with the generated elements. -/
theorem c8_scale_new_validation_witness :
    ((∀ o ∈ majorOffsets, 0 ≤ o ∧ o ≤ 11) ∧ majorOffsets.Chain' (fun a b => a < b)) ∧
    cMajorScale = ⟨cNaturalKey, majorOffsets, generateElements cNaturalKey majorOffsets⟩ :=
  ⟨(c8_scale_new_validation cNaturalKey majorOffsets).1.mp ⟨cMajorScale, rfl⟩,
   (c8_scale_new_validation cNaturalKey majorOffsets).2 cMajorScale rfl⟩

/-! ## Timeline compiler (src/track.rs, src/chord.rs) -/

/-- TICKS_PER_BEAT constant (src/track.rs). -/
def TICKS_PER_BEAT : Nat := 24

/-- A note or silence, with associated duration (type TimedNote). -/
abbrev TimedNote := Option Int × Nat

/-- The midly event kinds the compiler emits.  Deltas and the event payload
are kept abstract of the binary encoding. -/
inductive TrackEventKind where
  | midiProgramChange (channel : Nat) (program : Nat)
  | midiNoteOn (channel : Nat) (key : Int) (vel : Nat)
  | midiNoteOff (channel : Nat) (key : Int) (vel : Nat)
  | metaTempo (microsecondsPerBeat : Nat)
  | metaTimeSignature (numerator denominator clocksPerClick thirtySeconds : Nat)
  | metaEndOfTrack
deriving DecidableEq, Repr

/-- A delta-timed event (midly TrackEvent). -/
structure TrackEvent where
  delta : Nat
  kind : TrackEventKind
deriving DecidableEq, Repr

/-- Voice struct (src/track.rs). -/
structure Voice where
  id : String
  scale : Scale
  octave : Int
  start : Nat
  notes : List TimedNote
deriving DecidableEq, Repr

/-- The event loop of Voice::to_midi: walks the timed notes carrying the
accumulated event vector and the pending next_note_delta.  A sounding entry
looks its pitch up in the scale (none models the panic of a zero-degree
scale), pushes a note-on at the pending delta and a note-off at the entry
duration, and resets the pending delta; a rest adds its duration to the
pending delta and pushes nothing. -/
def voiceLoop (scale : Scale) (octave : Int) (channel : Nat) :
    List TrackEvent → Nat → List TimedNote → Option (List TrackEvent)
  | trackEvents, _, [] => some trackEvents
  | trackEvents, nextNoteDelta, (note, duration) :: rest =>
    match note with
    | some position =>
      (scale.getNote position octave).bind fun key =>
        voiceLoop scale octave channel
          (trackEvents ++
            [⟨nextNoteDelta, .midiNoteOn channel key.val 127⟩,
             ⟨duration, .midiNoteOff channel key.val 127⟩])
          0 rest
    | none => voiceLoop scale octave channel trackEvents (nextNoteDelta + duration) rest

/-- Voice::to_midi: instrument select first, then the note loop starting
from pending delta start * TICKS_PER_BEAT, then the end-of-track marker. -/
def Voice.toMidi (v : Voice) (instrument : Nat) (channel : Nat) :
    Option (List TrackEvent) :=
  (voiceLoop v.scale v.octave channel
      [⟨0, .midiProgramChange channel instrument⟩]
      (v.start * TICKS_PER_BEAT) v.notes).map
    (fun trackEvents => trackEvents ++ [⟨0, .metaEndOfTrack⟩])

/-- The walk of spec section 4.4, stated as a direct recursion over the
entries rather than a loop over an accumulator: a rest only grows the
pending delta; a sounding entry contributes a note-on at the pending delta
followed by a note-off at the entry duration, and the rest of the walk
restarts from pending delta 0. -/
def voiceWalk (scale : Scale) (octave : Int) (channel : Nat) :
    Nat → List TimedNote → Option (List TrackEvent)
  | _, [] => some []
  | pendingDelta, (none, duration) :: rest =>
    voiceWalk scale octave channel (pendingDelta + duration) rest
  | pendingDelta, (some position, duration) :: rest =>
    (scale.getNote position octave).bind fun key =>
      (voiceWalk scale octave channel 0 rest).map fun tail =>
        ⟨pendingDelta, .midiNoteOn channel key.val 127⟩ ::
          ⟨duration, .midiNoteOff channel key.val 127⟩ :: tail

/-- The accumulator loop is the spec walk with the accumulated prefix
prepended. -/
theorem voiceLoop_eq_walk (scale : Scale) (octave : Int) (channel : Nat)
    (notes : List TimedNote) :
    ∀ (acc : List TrackEvent) (delta : Nat),
      voiceLoop scale octave channel acc delta notes =
        (voiceWalk scale octave channel delta notes).map (fun body => acc ++ body) := by
  induction notes with
  | nil =>
    intro acc delta
    simp [voiceLoop, voiceWalk]
  | cons head rest ih =>
    intro acc delta
    obtain ⟨note, duration⟩ := head
    cases note with
    | none => simp [voiceLoop, voiceWalk, ih]
    | some position =>
      cases h : scale.getNote position octave with
      | none => simp [voiceLoop, voiceWalk, h]
      | some key =>
        simp only [voiceLoop, voiceWalk, h, Option.bind_some, ih]
        cases voiceWalk scale octave channel 0 rest <;> simp

/-- C4: Voice::to_midi is exactly: one instrument-select event with zero
delta, then the section 4.4 walk of the timed entries with the pending
delta initialized to start * TICKS_PER_BEAT (rests only accumulate delta,
sounding entries emit note-on at the accumulated delta then note-off at the
entry duration), then one end-of-track marker with zero delta. -/
theorem c4_voice_timeline (v : Voice) (instrument channel : Nat) :
    v.toMidi instrument channel =
      (voiceWalk v.scale v.octave channel (v.start * TICKS_PER_BEAT) v.notes).map
        (fun body =>
          ⟨0, .midiProgramChange channel instrument⟩ ::
            (body ++ [⟨0, .metaEndOfTrack⟩])) := by
  unfold Voice.toMidi
  rw [voiceLoop_eq_walk]
  cases voiceWalk v.scale v.octave channel (v.start * TICKS_PER_BEAT) v.notes <;> simp

/-- Chord struct (src/chord.rs): a fixed set of scale positions, and timed
entries that either sound the whole set or rest. -/
structure Chord where
  scale : Scale
  chord : List Int
  octave : Int
  notes : List (Bool × Nat)
deriving DecidableEq, Repr

/-- The note-on inner loop of Chord::to_midi: each position is pushed at the
current next_note_delta, which is reset to zero after every push; the final
next_note_delta is returned (unchanged when the chord set is empty). -/
def chordNoteOns (scale : Scale) (octave : Int) (channel : Nat) :
    Nat → List Int → Option (List TrackEvent × Nat)
  | nextNoteDelta, [] => some ([], nextNoteDelta)
  | nextNoteDelta, position :: rest =>
    (scale.getNote position octave).bind fun key =>
      (chordNoteOns scale octave channel 0 rest).map fun (events, finalDelta) =>
        (⟨nextNoteDelta, .midiNoteOn channel key.val 127⟩ :: events, finalDelta)

/-- The note-off inner loop of Chord::to_midi: every position is pushed
with the entry duration as its delta (the source never zeroes it). -/
def chordNoteOffs (scale : Scale) (octave : Int) (channel : Nat) (duration : Nat) :
    List Int → Option (List TrackEvent)
  | [] => some []
  | position :: rest =>
    (scale.getNote position octave).bind fun key =>
      (chordNoteOffs scale octave channel duration rest).map fun events =>
        ⟨duration, .midiNoteOff channel key.val 127⟩ :: events

/-- The entry loop of Chord::to_midi. -/
def chordLoop (c : Chord) (channel : Nat) :
    List TrackEvent → Nat → List (Bool × Nat) → Option (List TrackEvent)
  | trackEvents, _, [] => some trackEvents
  | trackEvents, nextNoteDelta, (isPlayed, duration) :: rest =>
    if isPlayed then
      (chordNoteOns c.scale c.octave channel nextNoteDelta c.chord).bind
        fun (ons, deltaAfter) =>
          (chordNoteOffs c.scale c.octave channel duration c.chord).bind fun offs =>
            chordLoop c channel (trackEvents ++ ons ++ offs) deltaAfter rest
    else
      chordLoop c channel trackEvents (nextNoteDelta + duration) rest

/-- Chord::to_midi (src/chord.rs): piano program select, then the entry
loop from pending delta 0; this revision pushes no end-of-track marker. -/
def Chord.toMidi (c : Chord) (channel : Nat) : Option (List TrackEvent) :=
  chordLoop c channel [⟨0, .midiProgramChange channel 1⟩] 0 c.notes

/-- The two-position C-major chord used to exhibit the C2 divergence. -/
def exChord : Chord :=
  ⟨cMajorScale, [0, 2], 4, [(true, 12)]⟩

/-- C2: the claim says that in a sounding chord entry only the first
note-off carries the duration and the remaining stacked note-offs have zero
delta, releasing the chord at one instant.  The source gives every note-off
the duration as its delta: on a two-note chord entry of duration 12 the
second note-off is emitted with delta 12, not 0, so the releases are
staggered 12 ticks apart. -/
theorem c2_chord_noteoffs_staggered :
    exChord.toMidi 0 = some
      [⟨0, .midiProgramChange 0 1⟩,
       ⟨0, .midiNoteOn 0 60 127⟩,
       ⟨0, .midiNoteOn 0 64 127⟩,
       ⟨12, .midiNoteOff 0 60 127⟩,
       ⟨12, .midiNoteOff 0 64 127⟩] ∧
    (exChord.toMidi 0).bind (fun l => l.get? 4) =
      some ⟨12, .midiNoteOff 0 64 127⟩ ∧
    (12 : Nat) ≠ 0 := by
  decide

/-! ## Piece assembler (src/track.rs) -/

/-- The two track kinds behind Box of dyn Track: plain voices and chords
(src/track.rs, src/chord.rs, assembled by src/json_input.rs). -/
inductive TrackBox where
  | voice (v : Voice)
  | chord (c : Chord)
deriving DecidableEq, Repr

/-- Track::to_midi dispatch.  The chord revision in src/chord.rs hardcodes
program 1 and takes only the channel. -/
def TrackBox.toMidi : TrackBox → Nat → Nat → Option (List TrackEvent)
  | .voice v, instrument, channel => v.toMidi instrument channel
  | .chord c, _, channel => c.toMidi channel

/-- Piece struct (src/track.rs). -/
structure Piece where
  bpm : Nat
  tracks : List TrackBox
deriving DecidableEq, Repr

/-- The dedicated header track of Piece::write_midi: the tempo meta-event
500000 * 120 / bpm, the fixed 4/4 time signature, and end-of-track.  The
division is a u32 division; at bpm 0 the source divides by zero and
panics, modelled as none. -/
def headerEvents (bpm : Nat) : Option (List TrackEvent) :=
  if bpm = 0 then none
  else some
    [⟨0, .metaTempo (500000 * 120 / bpm)⟩,
     ⟨0, .metaTimeSignature 4 2 24 8⟩,
     ⟨0, .metaEndOfTrack⟩]

/-- The track loop of Piece::write_midi: track i is compiled with
instrument 1 on channel u8::try_from(i) % 16.  The try_from conversion
panics for i > 255, modelled as none. -/
def compileTracks : Nat → List TrackBox → Option (List (List TrackEvent))
  | _, [] => some []
  | i, track :: rest =>
    if i ≤ 255 then
      (track.toMidi 1 (i % 16)).bind fun trackToMidi =>
        (compileTracks (i + 1) rest).map fun compiledRest =>
          trackToMidi :: compiledRest
    else none

/-- Piece::write_midi, up to (but not including) the byte serialization
performed by midly::write_std: the header track followed by the compiled
tracks in input order. -/
def Piece.writeMidi (p : Piece) : Option (List (List TrackEvent)) :=
  (headerEvents p.bpm).bind fun headerTrack =>
    (compileTracks 0 p.tracks).map fun compiled =>
      headerTrack :: compiled

/-- Successful compilation preserves length and maps index i to the i-th
track compiled on channel (k + i) % 16, where k is the starting index. -/
theorem compileTracks_get (ts : List TrackBox) :
    ∀ (k : Nat) (es : List (List TrackEvent)), compileTracks k ts = some es →
      es.length = ts.length ∧
      ∀ i (h : i < ts.length),
        es.get? i = (ts.get ⟨i, h⟩).toMidi 1 ((k + i) % 16) := by
  induction ts with
  | nil =>
    intro k es h
    simp only [compileTracks, Option.some.injEq] at h
    subst h
    simp
  | cons t rest ih =>
    intro k es h
    by_cases hk : k ≤ 255
    · simp only [compileTracks, if_pos hk] at h
      cases he : t.toMidi 1 (k % 16) with
      | none =>
        rw [he] at h
        simp at h
      | some e =>
        rw [he] at h
        cases hr : compileTracks (k + 1) rest with
        | none =>
          rw [hr] at h
          simp at h
        | some rs =>
          rw [hr] at h
          simp only [Option.some_bind, Option.map_some', Option.some.injEq] at h
          subst h
          obtain ⟨hlen, hidx⟩ := ih (k + 1) rs hr
          refine ⟨by simp [hlen], ?_⟩
          intro i hi
          cases i with
          | zero =>
            simpa using he.symm
          | succ i =>
            have hi2 : i < rest.length := by simpa using hi
            have := hidx i hi2
            have harith : k + 1 + i = k + (i + 1) := by omega
            rw [harith] at this
            simpa using this
    · simp only [compileTracks, if_neg hk] at h
      exact absurd h (by simp)

/-- Compilation never hits the channel-conversion failure when the indices
stay below 256 and every track compiles. -/
theorem compileTracks_isSome (ts : List TrackBox) :
    ∀ (k : Nat), k + ts.length ≤ 256 →
      (∀ i (h : i < ts.length),
        ((ts.get ⟨i, h⟩).toMidi 1 ((k + i) % 16)).isSome = true) →
      (compileTracks k ts).isSome = true := by
  induction ts with
  | nil =>
    intro k _ _
    simp [compileTracks]
  | cons t rest ih =>
    intro k hlen hall
    have hk : k ≤ 255 := by
      simp only [List.length_cons] at hlen
      omega
    have h0 := hall 0 (by simp)
    have hrest : (compileTracks (k + 1) rest).isSome = true := by
      refine ih (k + 1) (by simp only [List.length_cons] at hlen; omega) ?_
      intro i hi
      have := hall (i + 1) (by simp only [List.length_cons]; omega)
      have harith : k + (i + 1) = k + 1 + i := by omega
      rw [harith] at this
      simpa using this
    cases he : t.toMidi 1 (k % 16) with
    | none =>
      rw [show k + 0 = k by omega] at h0
      simp only [List.get] at h0
      rw [he] at h0
      simp at h0
    | some e =>
      cases hr : compileTracks (k + 1) rest with
      | none =>
        rw [hr] at hrest
        simp at hrest
      | some rs =>
        simp [compileTracks, if_pos hk, he, hr]

/-- C5 counterexample: the claim covers the whole normalized input range
0 to 255, but at bpm 0 the tempo computation divides by zero and
write_midi fails before building any track. -/
theorem c5_bpm_zero_fails :
    (Piece.mk 0 []).writeMidi = none := by
  decide

/-- C5 (amended to bpm in [1,255]): for every Piece with bpm between 1 and
255, write_midi builds the dedicated header track without failing — the
tempo meta-event 500000 * 120 / bpm first, then the fixed 4/4 time
signature, then end-of-track — and at the 120 bpm reference the tempo is
exactly 500000 microseconds per beat. -/
theorem c5_header_track (p : Piece) (h1 : 1 ≤ p.bpm) (h2 : p.bpm ≤ 255) :
    headerEvents p.bpm = some
      [⟨0, .metaTempo (500000 * 120 / p.bpm)⟩,
       ⟨0, .metaTimeSignature 4 2 24 8⟩,
       ⟨0, .metaEndOfTrack⟩] ∧
    p.writeMidi = (compileTracks 0 p.tracks).map
      (fun compiled =>
        [⟨0, TrackEventKind.metaTempo (500000 * 120 / p.bpm)⟩,
         ⟨0, .metaTimeSignature 4 2 24 8⟩,
         ⟨0, .metaEndOfTrack⟩] :: compiled) ∧
    500000 * 120 / 120 = 500000 := by
  have hb : ¬ p.bpm = 0 := by omega
  refine ⟨by simp [headerEvents, hb], ?_, by norm_num⟩
  unfold Piece.writeMidi headerEvents
  simp only [if_neg hb, Option.some_bind]

/-- Witness for C5: a 120 bpm Piece with no tracks yields exactly the
header track with tempo 500000. -/
theorem c5_header_track_witness :
    (Piece.mk 120 []).writeMidi = some
      [[⟨0, .metaTempo 500000⟩,
        ⟨0, .metaTimeSignature 4 2 24 8⟩,
        ⟨0, .metaEndOfTrack⟩]] := by
  have h := c5_header_track (Piece.mk 120 []) (by decide) (by decide)
  rw [h.2.1]
  decide

/-- A minimal voice used to build concrete pieces: no notes at all. -/
def trivialVoice : Voice :=
  ⟨"t", cMajorScale, 4, 0, []⟩

set_option maxRecDepth 8000

/-- C7 counterexample: the claim accepts any number of tracks, but the
channel computation converts the track index to u8 and panics at index
256, so a 257-track piece fails; 256 tracks still succeed. -/
theorem c7_too_many_tracks_fails :
    (Piece.mk 120 (List.replicate 257 (TrackBox.voice trivialVoice))).writeMidi = none ∧
    (Piece.mk 120 (List.replicate 256 (TrackBox.voice trivialVoice))).writeMidi.isSome = true := by
  decide

/-- C7 (amended to at most 256 tracks): write_midi places the compiled
tracks right after the header in input order, track i on channel i % 16
(so with 17 tracks, tracks 0 and 16 share channel 0); pieces with up to
256 compilable tracks are accepted, and beyond that the u8 index
conversion fails. -/
theorem c7_track_order_and_channels :
    (∀ (p : Piece) (l : List (List TrackEvent)), p.writeMidi = some l →
      l.length = p.tracks.length + 1 ∧
      ∀ i (h : i < p.tracks.length),
        l.get? (i + 1) = (p.tracks.get ⟨i, h⟩).toMidi 1 (i % 16)) ∧
    (∀ (p : Piece), 1 ≤ p.bpm → p.tracks.length ≤ 256 →
      (∀ i (h : i < p.tracks.length),
        ((p.tracks.get ⟨i, h⟩).toMidi 1 (i % 16)).isSome = true) →
      p.writeMidi.isSome = true) := by
  constructor
  · intro p l hl
    unfold Piece.writeMidi at hl
    cases hh : headerEvents p.bpm with
    | none =>
      rw [hh] at hl
      simp at hl
    | some hdr =>
      rw [hh] at hl
      cases hc : compileTracks 0 p.tracks with
      | none =>
        rw [hc] at hl
        simp at hl
      | some compiled =>
        rw [hc] at hl
        simp only [Option.some_bind, Option.map_some', Option.some.injEq] at hl
        subst hl
        obtain ⟨hlen, hidx⟩ := compileTracks_get p.tracks 0 compiled hc
        refine ⟨by simp [hlen], ?_⟩
        intro i hi
        have := hidx i hi
        simpa using this
  · intro p hb hlen hall
    unfold Piece.writeMidi
    have hb0 : ¬ p.bpm = 0 := by omega
    have hc : (compileTracks 0 p.tracks).isSome = true := by
      refine compileTracks_isSome p.tracks 0 (by omega) ?_
      intro i hi
      simpa using hall i hi
    cases hr : compileTracks 0 p.tracks with
    | none =>
      rw [hr] at hc
      simp at hc
    | some rs =>
      simp [headerEvents, hb0, hr]

/-- The 17-track piece of the C7 wraparound instance. -/
def p17 : Piece :=
  Piece.mk 120 (List.replicate 17 (TrackBox.voice trivialVoice))

/-- Witness for C7: the 17-track piece is accepted (its channels wrap,
tracks 0 and 16 both landing on channel 0). -/
theorem c7_track_order_and_channels_witness :
    p17.writeMidi.isSome = true :=
  c7_track_order_and_channels.2 p17 (by decide) (by decide) (by decide)

end Moira
